import Mathlib

/-!
Verification of the procman supervision engine (src/src/lib.rs).

The Rust source is shallowly embedded: OS interactions (reads from the
pipes of the child, `try_wait`, `kill`) are modelled as explicit inputs to the
otherwise-pure loop bodies, and the shared `VecDeque` event queue is
modelled as a list together with an explicit interleaving of push/pop
operations.  All definitions follow the control flow of `lib.rs`.
-/

namespace Procman

/-- Mirrors `const MAX_LINE: usize = 8192;` (lib.rs line 63). -/
def MAX_LINE : Nat := 8192

/-- Mirrors `enum HandleType { StdInput, StdOutput, StdError }`. -/
inductive HandleType
  | stdInput
  | stdOutput
  | stdError
deriving DecidableEq, Repr

/-- Mirrors `enum ProcessError { ErrorWaiting(Error), ErrorReading(Error),
ErrorHandling(Error) }`; the opaque `std::io::Error` payload is modelled
as a `Nat` identifier. -/
inductive ProcessError
  | errorWaiting (e : Nat)
  | errorReading (e : Nat)
  | errorHandling (e : Nat)
deriving DecidableEq, Repr

/-- Mirrors `enum ProcessEvent { Exited(ExitStatus), Error(ProcessError),
Output(HandleType, Vec<u8>, usize) }`; `ExitStatus` is modelled as a `Nat`
code and the byte vector as a `List Nat`. -/
inductive ProcessEvent
  | exited (status : Nat)
  | error (err : ProcessError)
  | output (h : HandleType) (bytes : List Nat) (len : Nat)
deriving DecidableEq, Repr

/-- A terminal event: `Exited` or the fatal `Error(ErrorWaiting)`.  These
are exactly the two events after whose production `run_process_with_intercept`
returns (lib.rs lines 216-222). -/
def isTerminal : ProcessEvent → Bool
  | .exited _ => true
  | .error (.errorWaiting _) => true
  | _ => false

/-! ## Process loop (run_process_with_intercept, lib.rs lines 186-225)

The loop body is driven each tick by what the OS reports: the outcome of
`h.read(&mut buf)` on each of the two pipes, and the outcome of
`ctl.child.try_wait()`.  These outcomes form the `TickInput`. -/

/-- Outcome of one `h.read(&mut buf)` call.  `ok data` models a successful
read in which the OS delivers the pending bytes `data` of the stream into
the buffer (a real `read` never returns more than the buffer size, so the
read length is `min data.length MAX_LINE`); `err e` models `Err(e)`. -/
inductive ReadResult
  | ok (data : List Nat)
  | err (e : Nat)
deriving DecidableEq, Repr

/-- Outcome of one `ctl.child.try_wait()` call: `Ok(None)`,
`Ok(Some(status))`, or `Err(e)`. -/
inductive WaitResult
  | running
  | exited (status : Nat)
  | errW (e : Nat)
deriving DecidableEq, Repr

/-- The OS-side observations of one tick of the process loop.  The
`Option` on the two read outcomes models the `if let Some(h) = &mut
ctl.child.stdout` check (the handle may be absent); `spawn` with
`Stdio::piped()` always makes both handles present. -/
structure TickInput where
  stdoutR : Option ReadResult
  stderrR : Option ReadResult
  waitR : WaitResult
deriving DecidableEq, Repr

/-- One `if let Some(h) = ... { match h.read(&mut buf) ... }` block
(lib.rs lines 192-199 for stdout, 204-211 for stderr).  Returns the
buffer after the read together with the events produced.  On `Ok(len)`
the code emits `Output(handle, buf.to_vec(), len)`: the event carries the
ENTIRE buffer (`buf.to_vec()`), whose front `len` bytes are the data just
read and whose tail is residual content from earlier reads. -/
def readStep (buf : List Nat) (r : Option ReadResult) (h : HandleType) :
    List Nat × List ProcessEvent :=
  match r with
  | none => (buf, [])
  | some (.ok data) =>
      let len := min data.length MAX_LINE
      let newBuf := data.take MAX_LINE ++ buf.drop len
      (newBuf, [.output h newBuf len])
  | some (.err e) => (buf, [.error (.errorReading e)])

/-- The `match ctl.child.try_wait()` block (lib.rs lines 216-222): event
produced, and whether the loop returns (`true` = the loop terminates). -/
def waitStep : WaitResult → List ProcessEvent × Bool
  | .running => ([], false)
  | .exited s => ([.exited s], true)
  | .errW e => ([.error (.errorWaiting e)], true)

/-- One full tick of the process loop body: stdout read, then stderr read
(reusing the same buffer), then the liveness query.  Returns the buffer
after the tick, the events produced in order, and whether the loop
terminates at this tick. -/
def processTick (buf : List Nat) (i : TickInput) :
    List Nat × List ProcessEvent × Bool :=
  let s1 := readStep buf i.stdoutR HandleType.stdOutput
  let s2 := readStep s1.1 i.stderrR HandleType.stdError
  let s3 := waitStep i.waitR
  (s2.1, s1.2 ++ s2.2 ++ s3.1, s3.2)

/-- Whether a tick input makes the loop terminate (`try_wait` returned
`Ok(Some(_))` or `Err(_)`). -/
def stopsLoop (i : TickInput) : Bool :=
  match i.waitR with
  | .running => false
  | _ => true

/-- The caller-supplied interception hook, as in
`F: Fn(ProcessEvent, &dyn Fn(ProcessEvent) -> Result<()>) -> Result<()>`:
given an event it calls the continuation zero or more times (the list of
events it forwards, in call order) and then returns `Ok` (`none`) or
`Err e` (`some e`). -/
abbrev Hook : Type := ProcessEvent → List ProcessEvent × Option Nat

/-- The wrapped `on_event` closure of lib.rs lines 173-184: the hook runs
with a continuation that pushes each forwarded event onto the queue; if
the hook returns `Err(e)`, `Error(ErrorHandling(e))` is pushed onto the
queue instead of propagating.  The closure itself always returns `Ok(())`. -/
def enqueueEvent (hook : Hook) (q : List ProcessEvent) (ev : ProcessEvent) :
    List ProcessEvent :=
  let r := hook ev
  match r.2 with
  | none => q ++ r.1
  | some e => q ++ r.1 ++ [.error (.errorHandling e)]

/-- The pass-through hook used by `run_process` (lib.rs lines 228-234):
`|ev, k| k(ev)`. -/
def passHook : Hook := fun ev => ([ev], none)

/-- The process loop `loop { ... }` of `run_process_with_intercept`
(lib.rs lines 186-225), driven by a finite list of tick inputs (the fuel).
Returns the event queue after the run and whether the loop returned
(`true`) or was still running when the inputs ran out (`false`). -/
def run_process_with_intercept (hook : Hook) :
    List Nat → List ProcessEvent → List TickInput → List ProcessEvent × Bool
  | _, q, [] => (q, false)
  | buf, q, i :: rest =>
      let t := processTick buf i
      let q2 := t.2.1.foldl (enqueueEvent hook) q
      if t.2.2 then (q2, true)
      else run_process_with_intercept hook t.1 q2 rest

/-- The raw events produced by the process loop, in production order,
up to and including the tick at which the loop terminates (if any). -/
def producedEvents : List Nat → List TickInput → List ProcessEvent
  | _, [] => []
  | buf, i :: rest =>
      let t := processTick buf i
      if t.2.2 then t.2.1 else t.2.1 ++ producedEvents t.1 rest

/-! ## The shared per-PCB event queue (`VecDeque`, lib.rs lines 17-18)

The producer (process loop) does `push_back`, the consumer (director)
does `pop_front`; the `RwLock` makes each operation atomic, so any
concurrent execution is some interleaving of these atomic operations. -/

/-- One atomic operation on the event queue of a PCB. -/
inductive QueueOp
  | push (ev : ProcessEvent)
  | pop
deriving DecidableEq, Repr

/-- The events pushed by an interleaving, in push order. -/
def pushedOf : List QueueOp → List ProcessEvent
  | [] => []
  | .push e :: rest => e :: pushedOf rest
  | .pop :: rest => pushedOf rest

/-- Run an interleaving of queue operations: `push` is `push_back`,
`pop` is `pop_front` (a `pop` of an empty queue dequeues nothing, as in
the director `if let Some(ev) = ....pop_front()`).  Returns the
sequence of dequeued events in dequeue order, and the final queue. -/
def runQueueOps : List QueueOp → List ProcessEvent →
    List ProcessEvent × List ProcessEvent
  | [], q => ([], q)
  | .push e :: rest, q => runQueueOps rest (q ++ [e])
  | .pop :: rest, q =>
      match q with
      | [] => runQueueOps rest []
      | e :: q2 =>
          let r := runQueueOps rest q2
          (e :: r.1, r.2)

/-! ## Director loop (run_director_with_intercept, lib.rs lines 93-128)

The registry is modelled as an association list from process name to that
pending event queue of each PCB (front of list = front of queue).  The
caller-supplied handler `F: Fn(ProcessEvent, &mut dyn FnMut(ProcessEvent))`
is modelled by the list of events it passes to its continuation, in call
order. -/

/-- Registry as seen by the director: name to pending event queue. -/
abbrev DirRegistry : Type := List (String × List ProcessEvent)

/-- The handler of the director: given the dequeued event, the list of events
it invokes the removal continuation with, in call order. -/
abbrev Handler : Type := ProcessEvent → List ProcessEvent

/-- The closure passed as the removal continuation of the director (lib.rs lines
114-118): for each event the handler invokes it with, the process name is
pushed onto `to_remove` ONLY when that event is `Exited`. -/
def marksOf (h : Handler) (name : String) (ev : ProcessEvent) : List String :=
  (h ev).filterMap fun e =>
    match e with
    | .exited _ => some name
    | _ => none

/-- Visit one registry entry (the body of the `for (name, ctl) in ...`
loop, lib.rs lines 105-120): `pop_front` the queue; if an event was
pending, run the handler on it and collect the names it pushes onto
`to_remove`.  Returns the entry with its updated queue, the names marked,
and the event handled (if any). -/
def visitEntry (h : Handler) (p : String × List ProcessEvent) :
    (String × List ProcessEvent) × List String × List ProcessEvent :=
  match p.2 with
  | [] => (p, [], [])
  | ev :: rest => ((p.1, rest), marksOf h p.1 ev, [ev])

/-- The full visitation pass over every entry, accumulating the updated
registry, the `to_remove` list, and the handled events in visit order. -/
def directorPass (h : Handler) :
    DirRegistry → DirRegistry × List String × List ProcessEvent
  | [] => ([], [], [])
  | p :: rest =>
      let v := visitEntry h p
      let r := directorPass h rest
      (v.1 :: r.1, v.2.1 ++ r.2.1, v.2.2 ++ r.2.2)

/-- The `for name in to_remove { procs.remove(&name) }` loop (lib.rs
lines 122-125): remove each marked name in turn. -/
def removeMarked (marks : List String) (r : DirRegistry) : DirRegistry :=
  marks.foldl (fun acc n => acc.eraseP (fun p => p.1 == n)) r

/-- Result of one director tick: either the loop returned `Ok(())`, or
it goes around again with the registry it left behind. -/
inductive DirTickResult
  | finished
  | stepped (r : DirRegistry)
deriving DecidableEq, Repr

/-- One tick of the director loop body (lib.rs lines 97-127): if the
registry is empty, return `Ok(())`; otherwise visit every entry, then
remove the marked names. -/
def directorTick (h : Handler) (r : DirRegistry) : DirTickResult :=
  if r.length = 0 then .finished
  else
    let p := directorPass h r
    .stepped (removeMarked p.2.1 p.1)

/-- The registry after one tick (identity once the director has
finished). -/
def dirStep (h : Handler) (r : DirRegistry) : DirRegistry :=
  match directorTick h r with
  | .finished => r
  | .stepped r2 => r2

/-- The registry after `k` ticks. -/
def ticksAfter (h : Handler) : Nat → DirRegistry → DirRegistry
  | 0, r => r
  | k + 1, r => ticksAfter h k (dirStep h r)

/-- The director loop `loop { ... }` of `run_director_with_intercept`,
driven for at most `fuel` ticks: `true` means the loop returned `Ok(())`
within the fuel, `false` that it was still looping. -/
def run_director_with_intercept (h : Handler) :
    Nat → DirRegistry → Bool
  | 0, _ => false
  | fuel + 1, r =>
      match directorTick h r with
      | .finished => true
      | .stepped r2 => run_director_with_intercept h fuel r2

/-! ## Manager-level operations: registration and stop

For these the registry maps names to process control blocks; the only
PCB state the claims need is whether the underlying child has had `kill`
requested on it, plus its event queue. -/

/-- A process control block: `child` liveness (no kill requested yet) and
its pending event queue. -/
structure PCB where
  alive : Bool
  queue : List ProcessEvent
deriving DecidableEq, Repr

/-- The process table of the manager: name to PCB, keys unique (a `HashMap` in
the source). -/
abbrev MgrRegistry : Type := List (String × PCB)

/-- Outcome of the registration path of `run_process_with_intercept`
(lib.rs lines 156-170). -/
inductive RegisterResult
  | ok (r : MgrRegistry)
  | panicked (r : MgrRegistry) (newChildKilled : Bool)
deriving DecidableEq, Repr

/-- The `self.processes.write().unwrap().entry(name).and_modify(...)
.or_insert_with(...)` block of lib.rs lines 159-170: if the name is
already present, the code kills the EXISTING child, kills the NEW child,
and panics (aborting the supervision of the new process and unwinding the
caller); only if the name is fresh is the new PCB inserted. -/
def registerStep (r : MgrRegistry) (name : String) (newPcb : PCB) :
    RegisterResult :=
  match r.find? (fun p => p.1 == name) with
  | some _ =>
      .panicked
        (r.map fun p =>
          if p.1 == name then (p.1, { p.2 with alive := false }) else p)
        true
  | none => .ok (r ++ [(name, newPcb)])

/-- Outcome of `kill()` on the child (an OS-side input). -/
inductive KillResult
  | ok
  | err (e : Nat)
deriving DecidableEq, Repr

/-- Result of `stop_process`. -/
inductive StopResult
  | ok
  | notFound
  | killError (e : Nat)
deriving DecidableEq, Repr

/-- `stop_process` (lib.rs lines 236-246): remove the entry; if it was
present, request termination of its child (`kill()?`, propagating a kill
error); otherwise return the "Could not find entry" error.  Returns the
registry after the call, the result, and whether termination of the
child of the removed entry was requested. -/
def stop_process (r : MgrRegistry) (name : String) (kill : KillResult) :
    MgrRegistry × StopResult × Bool :=
  match r.find? (fun p => p.1 == name) with
  | some _ =>
      let r2 := r.eraseP (fun p => p.1 == name)
      match kill with
      | .ok => (r2, .ok, true)
      | .err e => (r2, .killError e, true)
  | none => (r, .notFound, false)

/-- The pass-through director handler used by `run_director` (lib.rs
lines 130-132): `|ev, k| k(ev)` — it invokes the removal continuation
exactly once, with the event it received. -/
def forwardHandler : Handler := fun ev => [ev]

/-- A director handler that invokes the removal continuation exactly
once, always with an `Output` event. -/
def outputOnlyHandler : Handler := fun _ => [ProcessEvent.output HandleType.stdOutput [] 0]

/-! ## Helper lemmas -/

theorem passHook_foldl (evs : List ProcessEvent) :
    ∀ q : List ProcessEvent, evs.foldl (enqueueEvent passHook) q = q ++ evs := by
  induction evs with
  | nil => intro q; simp
  | cons e rest ih =>
      intro q
      simp only [List.foldl_cons]
      rw [ih]
      simp [enqueueEvent, passHook]

theorem run_passHook_queue (inputs : List TickInput) :
    ∀ (buf : List Nat) (q : List ProcessEvent),
      (run_process_with_intercept passHook buf q inputs).1
        = q ++ producedEvents buf inputs := by
  induction inputs with
  | nil => intro buf q; simp [run_process_with_intercept, producedEvents]
  | cons i rest ih =>
      intro buf q
      simp only [run_process_with_intercept, producedEvents]
      by_cases ht : (processTick buf i).2.2
      · simp [ht, passHook_foldl]
      · simp [ht, passHook_foldl, ih]

theorem runQueueOps_spec (ops : List QueueOp) :
    ∀ q : List ProcessEvent,
      (runQueueOps ops q).1 ++ (runQueueOps ops q).2 = q ++ pushedOf ops := by
  induction ops with
  | nil => intro q; simp [runQueueOps, pushedOf]
  | cons op rest ih =>
      intro q
      cases op with
      | push e =>
          simp only [runQueueOps, pushedOf]
          rw [ih]
          simp
      | pop =>
          cases q with
          | nil => simp only [runQueueOps, pushedOf]; rw [ih]
          | cons e q2 =>
              simp only [runQueueOps, pushedOf]
              rw [List.cons_append, ih]
              simp

theorem eraseP_key_not_mem (name : String) :
    ∀ r : MgrRegistry, (r.map Prod.fst).Nodup →
      ∀ x ∈ r.eraseP (fun p => p.1 == name), (x.1 == name) = false := by
  intro r
  induction r with
  | nil => intro _ x hx; simp [List.eraseP] at hx
  | cons p rest ih =>
      intro hnd x hx
      simp only [List.map_cons, List.nodup_cons] at hnd
      by_cases hp : (p.1 == name) = true
      · have hx2 : x ∈ rest := by
          simpa only [List.eraseP_cons, hp, cond_true] using hx
        have hpn : p.1 = name := by simpa using hp
        by_contra hc
        have hx1 : x.1 = name := by
          cases hb : (x.1 == name) with
          | false => exact absurd hb hc
          | true => simpa using hb
        exact hnd.1 (hpn ▸ hx1 ▸ List.mem_map_of_mem Prod.fst hx2)
      · have hp2 : (p.1 == name) = false := by
          simpa using hp
        have hx2 : x = p ∨ x ∈ rest.eraseP (fun p => p.1 == name) := by
          simpa only [List.eraseP_cons, hp2, cond_false, List.mem_cons] using hx
        cases hx2 with
        | inl hxp => rw [hxp]; exact hp2
        | inr hx3 => exact ih hnd.2 x hx3

theorem find?_eraseP_none (r : MgrRegistry) (name : String)
    (hnd : (r.map Prod.fst).Nodup) :
    (r.eraseP (fun p => p.1 == name)).find? (fun p => p.1 == name) = none := by
  apply List.find?_eq_none.mpr
  intro x hx
  simp [eraseP_key_not_mem name r hnd x hx]

/-! ## Claims -/

/-- Claim C1 (code_bug): the spec requires that registering a name
already present fail with a recoverable `NameInUse` error, never abort
the supervising program, never kill any process, and leave the existing
registered process unaffected.  The code instead kills the existing
child, kills the new child, and panics: evaluated at a registry already
holding "foo", `registerStep` aborts (`panicked`), the new child is
killed, and the existing PCB now has its child killed
(`alive := false`). -/
theorem register_duplicate_kills_and_panics :
    registerStep [("foo", ⟨true, []⟩)] "foo" ⟨true, []⟩
      = RegisterResult.panicked [("foo", ⟨false, []⟩)] true := by decide

/-- Claim C8: for a registered name (unique keys, as in the source
`HashMap`), the first `stop_process` succeeds (`Ok`), requests
termination of the underlying child, and removes the registry entry; a
second `stop_process` for the same name returns the not-found error and
requests no termination. -/
theorem stop_once_ok_stop_twice_notFound
    (r : MgrRegistry) (name : String) (e : String × PCB) (kill2 : KillResult)
    (hfind : r.find? (fun p => p.1 == name) = some e)
    (hnd : (r.map Prod.fst).Nodup) :
    (stop_process r name KillResult.ok).2.1 = StopResult.ok
    ∧ (stop_process r name KillResult.ok).2.2 = true
    ∧ ((stop_process r name KillResult.ok).1).find? (fun p => p.1 == name) = none
    ∧ (stop_process (stop_process r name KillResult.ok).1 name kill2).2.1
        = StopResult.notFound
    ∧ (stop_process (stop_process r name KillResult.ok).1 name kill2).2.2
        = false := by
  have h1 : stop_process r name KillResult.ok
      = (r.eraseP (fun p => p.1 == name), StopResult.ok, true) := by
    unfold stop_process
    rw [hfind]
  have h2 := find?_eraseP_none r name hnd
  refine ⟨by rw [h1], by rw [h1], by rw [h1]; exact h2, ?_, ?_⟩
  · rw [h1]
    unfold stop_process
    rw [h2]
  · rw [h1]
    unfold stop_process
    rw [h2]

/-- Witness for C8 at a concrete registry. -/
theorem stop_once_ok_stop_twice_notFound_witness :
    ([(("a" : String), (⟨true, []⟩ : PCB))].find? (fun p => p.1 == "a")
        = some ("a", ⟨true, []⟩))
    ∧ (stop_process [("a", ⟨true, []⟩)] "a" KillResult.ok).2.1 = StopResult.ok
    ∧ (stop_process (stop_process [("a", ⟨true, []⟩)] "a" KillResult.ok).1
          "a" KillResult.ok).2.1 = StopResult.notFound := by
  have h := stop_once_ok_stop_twice_notFound
    [("a", ⟨true, []⟩)] "a" ("a", ⟨true, []⟩) KillResult.ok (by decide) (by decide)
  exact ⟨by decide, h.1, h.2.2.2.1⟩

/-- Claim C6: when the interception hook fails with error `e` after
forwarding `fwd`, the wrapped `on_event` pushes `Error(ErrorHandling(e))`
onto the queue after the forwarded events instead of propagating the
failure, and the control flow of the process loop (continue vs terminate)
is exactly that of the loop run with the well-behaved pass-through hook:
a failing hook never stops the loop. -/
theorem hook_failure_captured_loop_continues
    (hook : Hook) (q : List ProcessEvent) (ev : ProcessEvent)
    (fwd : List ProcessEvent) (e : Nat)
    (hfail : hook ev = (fwd, some e)) :
    enqueueEvent hook q ev
      = q ++ fwd ++ [ProcessEvent.error (ProcessError.errorHandling e)]
    ∧ ∀ (buf : List Nat) (q0 q1 : List ProcessEvent) (inputs : List TickInput),
        (run_process_with_intercept hook buf q0 inputs).2
          = (run_process_with_intercept passHook buf q1 inputs).2 := by
  constructor
  · unfold enqueueEvent
    rw [hfail]
  · intro buf q0 q1 inputs
    induction inputs generalizing buf q0 q1 with
    | nil => rfl
    | cons i rest ih =>
        simp only [run_process_with_intercept]
        by_cases ht : (processTick buf i).2.2
        · simp [ht]
        · simp only [ht, if_false, Bool.false_eq_true]
          exact ih _ _ _

/-- Witness for C6: a hook that always fails with error 7. -/
theorem hook_failure_captured_loop_continues_witness :
    enqueueEvent (fun _ => ([], some 7)) [] (ProcessEvent.exited 0)
      = [ProcessEvent.error (ProcessError.errorHandling 7)]
    ∧ (run_process_with_intercept (fun _ => ([], some 7)) [] []
          [⟨none, none, WaitResult.running⟩]).2
      = (run_process_with_intercept passHook [] []
          [⟨none, none, WaitResult.running⟩]).2 := by
  have h := hook_failure_captured_loop_continues
    (fun _ => ([], some 7)) [] (ProcessEvent.exited 0) [] 7 rfl
  exact ⟨h.1, h.2 [] [] [] [⟨none, none, WaitResult.running⟩]⟩

/-- Claim C5: on each process-loop tick the steps occur in order — stdout
read, stderr read, liveness query.  A successful read of `data` yields an
`Output` event on the corresponding stream reporting the read length
(`min data.length MAX_LINE`, which may be 0); a read error yields
`Error(ErrorReading)` and does not affect the buffer; the liveness query
yields nothing when still running, `Exited(status)` on exit, and
`Error(ErrorWaiting)` on a query failure.  The loop terminates at this
tick exactly when the liveness query returned an exit or failed, and the
loop runner correspondingly recurses into the next tick or returns. -/
theorem process_tick_order_and_outcomes (buf : List Nat) (i : TickInput) :
    ((processTick buf i).2.1
        = (readStep buf i.stdoutR HandleType.stdOutput).2
          ++ (readStep (readStep buf i.stdoutR HandleType.stdOutput).1
                i.stderrR HandleType.stdError).2
          ++ (waitStep i.waitR).1)
    ∧ ((processTick buf i).2.2 = stopsLoop i)
    ∧ (stopsLoop i = false ↔ i.waitR = WaitResult.running)
    ∧ (∀ data, i.stdoutR = some (ReadResult.ok data) →
        (readStep buf i.stdoutR HandleType.stdOutput).2
          = [ProcessEvent.output HandleType.stdOutput
              (readStep buf i.stdoutR HandleType.stdOutput).1
              (min data.length MAX_LINE)])
    ∧ (∀ e, i.stdoutR = some (ReadResult.err e) →
        (readStep buf i.stdoutR HandleType.stdOutput).2
          = [ProcessEvent.error (ProcessError.errorReading e)]
        ∧ (readStep buf i.stdoutR HandleType.stdOutput).1 = buf)
    ∧ (∀ data, i.stderrR = some (ReadResult.ok data) →
        (readStep (readStep buf i.stdoutR HandleType.stdOutput).1
            i.stderrR HandleType.stdError).2
          = [ProcessEvent.output HandleType.stdError
              (readStep (readStep buf i.stdoutR HandleType.stdOutput).1
                i.stderrR HandleType.stdError).1
              (min data.length MAX_LINE)])
    ∧ (∀ e, i.stderrR = some (ReadResult.err e) →
        (readStep (readStep buf i.stdoutR HandleType.stdOutput).1
            i.stderrR HandleType.stdError).2
          = [ProcessEvent.error (ProcessError.errorReading e)])
    ∧ (i.waitR = WaitResult.running → (waitStep i.waitR).1 = [])
    ∧ (∀ s, i.waitR = WaitResult.exited s →
        (waitStep i.waitR).1 = [ProcessEvent.exited s]
        ∧ (processTick buf i).2.2 = true)
    ∧ (∀ e, i.waitR = WaitResult.errW e →
        (waitStep i.waitR).1 = [ProcessEvent.error (ProcessError.errorWaiting e)]
        ∧ (processTick buf i).2.2 = true)
    ∧ (∀ (hook : Hook) (q : List ProcessEvent) (rest : List TickInput),
        stopsLoop i = false →
          run_process_with_intercept hook buf q (i :: rest)
            = run_process_with_intercept hook (processTick buf i).1
                ((processTick buf i).2.1.foldl (enqueueEvent hook) q) rest)
    ∧ (∀ (hook : Hook) (q : List ProcessEvent) (rest : List TickInput),
        stopsLoop i = true →
          run_process_with_intercept hook buf q (i :: rest)
            = ((processTick buf i).2.1.foldl (enqueueEvent hook) q, true)) := by
  have hctl : (processTick buf i).2.2 = stopsLoop i := by
    cases hw : i.waitR <;> simp [processTick, waitStep, stopsLoop, hw]
  refine ⟨rfl, hctl, ?_, ?_, ?_, ?_, ?_, ?_, ?_, ?_, ?_, ?_⟩
  · cases hw : i.waitR <;> simp [stopsLoop, hw]
  · intro data hr
    rw [hr]
    simp [readStep]
  · intro e hr
    rw [hr]
    exact ⟨rfl, rfl⟩
  · intro data hr
    rw [hr]
    simp [readStep]
  · intro e hr
    rw [hr]
    rfl
  · intro hw
    rw [hw]
    rfl
  · intro s hw
    refine ⟨by rw [hw]; rfl, ?_⟩
    rw [hctl]
    simp [stopsLoop, hw]
  · intro e hw
    refine ⟨by rw [hw]; rfl, ?_⟩
    rw [hctl]
    simp [stopsLoop, hw]
  · intro hook q rest hs
    simp only [run_process_with_intercept]
    rw [hctl, hs]
    simp
  · intro hook q rest hs
    simp only [run_process_with_intercept]
    rw [hctl, hs]
    simp

/-- Witness for C5 at a concrete tick: stdout delivers one byte, the
stderr read fails, and the liveness query reports exit status 0. -/
theorem process_tick_order_and_outcomes_witness :
    (processTick []
        ⟨some (ReadResult.ok [7]), some (ReadResult.err 3),
          WaitResult.exited 0⟩).2.1
      = [ProcessEvent.output HandleType.stdOutput [7] 1,
         ProcessEvent.error (ProcessError.errorReading 3),
         ProcessEvent.exited 0]
    ∧ (processTick []
        ⟨some (ReadResult.ok [7]), some (ReadResult.err 3),
          WaitResult.exited 0⟩).2.2 = true := by
  obtain ⟨h1, h2, h3, h4, h5, h6, h7, h8, h9, h10, h11, h12⟩ :=
    process_tick_order_and_outcomes []
      ⟨some (ReadResult.ok [7]), some (ReadResult.err 3), WaitResult.exited 0⟩
  refine ⟨?_, (h9 0 rfl).2⟩
  rw [h1, h4 [7] rfl, h7 3 rfl, (h9 0 rfl).1]
  decide

theorem readStep_output_le (buf : List Nat) (r : Option ReadResult)
    (h h2 : HandleType) (b : List Nat) (len : Nat)
    (hm : ProcessEvent.output h2 b len ∈ (readStep buf r h).2) :
    len ≤ MAX_LINE := by
  cases r with
  | none => simp [readStep] at hm
  | some rr =>
      cases rr with
      | ok data =>
          simp only [readStep, List.mem_singleton, ProcessEvent.output.injEq] at hm
          rw [hm.2.2]
          exact min_le_right _ _
      | err e => simp [readStep] at hm

theorem waitStep_no_output (w : WaitResult) (h : HandleType) (b : List Nat)
    (len : Nat) : ProcessEvent.output h b len ∉ (waitStep w).1 := by
  intro hm
  cases w <;> simp [waitStep] at hm

theorem tick_output_le (buf : List Nat) (i : TickInput) (h : HandleType)
    (b : List Nat) (len : Nat)
    (hm : ProcessEvent.output h b len ∈ (processTick buf i).2.1) :
    len ≤ MAX_LINE := by
  simp only [processTick, List.mem_append] at hm
  rcases hm with (hm | hm) | hm
  · exact readStep_output_le _ _ _ _ _ _ hm
  · exact readStep_output_le _ _ _ _ _ _ hm
  · exact absurd hm (waitStep_no_output _ _ _ _)

/-- Claim C9: every `Output` event produced by the process loop reports a
length of at most `MAX_LINE` (8192) bytes. -/
theorem output_len_le_max (buf : List Nat) (inputs : List TickInput)
    (h : HandleType) (b : List Nat) (len : Nat)
    (hm : ProcessEvent.output h b len ∈ producedEvents buf inputs) :
    len ≤ MAX_LINE := by
  induction inputs generalizing buf with
  | nil => simp [producedEvents] at hm
  | cons i rest ih =>
      simp only [producedEvents] at hm
      by_cases ht : (processTick buf i).2.2
      · rw [if_pos ht] at hm
        exact tick_output_le buf i h b len hm
      · rw [if_neg ht] at hm
        rcases List.mem_append.mp hm with hm1 | hm2
        · exact tick_output_le buf i h b len hm1
        · exact ih _ hm2

/-- Witness for C9: a one-byte read reports length 1 ≤ 8192. -/
theorem output_len_le_max_witness :
    (ProcessEvent.output HandleType.stdOutput [7] 1
        ∈ producedEvents []
            [⟨some (ReadResult.ok [7]), none, WaitResult.exited 0⟩])
    ∧ 1 ≤ MAX_LINE := by
  refine ⟨by decide, output_len_le_max []
    [⟨some (ReadResult.ok [7]), none, WaitResult.exited 0⟩]
    HandleType.stdOutput [7] 1 (by decide)⟩

theorem readStep_length (buf : List Nat) (r : Option ReadResult)
    (h : HandleType) (hb : buf.length = MAX_LINE) :
    (readStep buf r h).1.length = MAX_LINE := by
  cases r with
  | none => exact hb
  | some rr =>
      cases rr with
      | ok data =>
          simp only [readStep, List.length_append, List.length_take,
            List.length_drop, hb]
          omega
      | err e => exact hb

theorem tick_length (buf : List Nat) (i : TickInput)
    (hb : buf.length = MAX_LINE) : (processTick buf i).1.length = MAX_LINE :=
  readStep_length _ i.stderrR HandleType.stdError
    (readStep_length buf i.stdoutR HandleType.stdOutput hb)

theorem readStep_output_bytes_len (buf : List Nat) (r : Option ReadResult)
    (h h2 : HandleType) (b : List Nat) (len : Nat)
    (hb : buf.length = MAX_LINE)
    (hm : ProcessEvent.output h2 b len ∈ (readStep buf r h).2) :
    b.length = MAX_LINE := by
  cases r with
  | none => simp [readStep] at hm
  | some rr =>
      cases rr with
      | ok data =>
          simp only [readStep, List.mem_singleton, ProcessEvent.output.injEq] at hm
          rw [hm.2.1]
          exact readStep_length buf (some (ReadResult.ok data)) h hb
      | err e => simp [readStep] at hm

/-- Claim C10: every `Output` event carries a byte vector of length
exactly `MAX_LINE` (the code emits `buf.to_vec()`, the whole 8192-byte
buffer, regardless of the reported length), and on a successful read only
the first `min data.length MAX_LINE` bytes of that vector are the data
delivered on this tick — the remainder is residual buffer content from
before the read. -/
theorem output_bytes_full_buffer (buf : List Nat)
    (hb : buf.length = MAX_LINE) (inputs : List TickInput) :
    (∀ h b len, ProcessEvent.output h b len ∈ producedEvents buf inputs →
        b.length = MAX_LINE)
    ∧ (∀ (b2 data : List Nat) (ht : HandleType), b2.length = MAX_LINE →
        (readStep b2 (some (ReadResult.ok data)) ht).2
          = [ProcessEvent.output ht
              ((readStep b2 (some (ReadResult.ok data)) ht).1)
              (min data.length MAX_LINE)]
        ∧ ((readStep b2 (some (ReadResult.ok data)) ht).1).take
              (min data.length MAX_LINE)
            = data.take (min data.length MAX_LINE)
        ∧ ((readStep b2 (some (ReadResult.ok data)) ht).1).drop
              (min data.length MAX_LINE)
            = b2.drop (min data.length MAX_LINE)) := by
  constructor
  · intro h b len hm
    induction inputs generalizing buf with
    | nil => simp [producedEvents] at hm
    | cons i rest ih =>
        simp only [producedEvents] at hm
        have htick : ∀ hx bx lx,
            ProcessEvent.output hx bx lx ∈ (processTick buf i).2.1 →
              bx.length = MAX_LINE := by
          intro hx bx lx hmx
          simp only [processTick, List.mem_append] at hmx
          rcases hmx with (hmx | hmx) | hmx
          · exact readStep_output_bytes_len _ _ _ _ _ _ hb hmx
          · exact readStep_output_bytes_len _ _ _ _ _ _
              (readStep_length buf i.stdoutR HandleType.stdOutput hb) hmx
          · exact absurd hmx (waitStep_no_output _ _ _ _)
        by_cases ht : (processTick buf i).2.2
        · rw [if_pos ht] at hm
          exact htick _ _ _ hm
        · rw [if_neg ht] at hm
          rcases List.mem_append.mp hm with hm1 | hm2
          · exact htick _ _ _ hm1
          · exact ih _ (tick_length buf i hb) hm2
  · intro b2 data ht hb2
    refine ⟨rfl, ?_, ?_⟩
    · show ((data.take MAX_LINE) ++ b2.drop (min data.length MAX_LINE)).take
          (min data.length MAX_LINE) = data.take (min data.length MAX_LINE)
      rw [List.take_append_of_le_length
        (by rw [List.length_take]; omega), List.take_take]
      congr 1
      omega
    · show ((data.take MAX_LINE) ++ b2.drop (min data.length MAX_LINE)).drop
          (min data.length MAX_LINE) = b2.drop (min data.length MAX_LINE)
      exact List.drop_left' (by rw [List.length_take]; omega)

/-- Witness for C10 at a concrete full-size buffer and a one-byte read. -/
theorem output_bytes_full_buffer_witness :
    ((List.replicate MAX_LINE 0).length = MAX_LINE)
    ∧ ((readStep (List.replicate MAX_LINE 0) (some (ReadResult.ok [7]))
          HandleType.stdOutput).1).take (min ([7] : List Nat).length MAX_LINE)
        = ([7] : List Nat).take (min ([7] : List Nat).length MAX_LINE) := by
  have h := output_bytes_full_buffer (List.replicate MAX_LINE 0) (by simp) []
  exact ⟨by simp,
    (h.2 (List.replicate MAX_LINE 0) [7] HandleType.stdOutput (by simp)).2.1⟩

theorem tick_stop_eq (buf : List Nat) (i : TickInput) :
    (processTick buf i).2.2 = stopsLoop i := by
  cases hw : i.waitR <;> simp [processTick, waitStep, stopsLoop, hw]

theorem readStep_not_terminal (buf : List Nat) (r : Option ReadResult)
    (h : HandleType) : ∀ ev ∈ (readStep buf r h).2, isTerminal ev = false := by
  intro ev hm
  cases r with
  | none => simp [readStep] at hm
  | some rr =>
      cases rr with
      | ok data =>
          simp only [readStep, List.mem_singleton] at hm
          rw [hm]
          rfl
      | err e =>
          simp only [readStep, List.mem_singleton] at hm
          rw [hm]
          rfl

theorem produced_terminal_last (inputs : List TickInput) :
    ∀ buf : List Nat, inputs.any stopsLoop = true →
      ∃ pre t, producedEvents buf inputs = pre ++ [t]
        ∧ isTerminal t = true ∧ ∀ e ∈ pre, isTerminal e = false := by
  induction inputs with
  | nil => intro buf hstop; simp at hstop
  | cons i rest ih =>
      intro buf hstop
      by_cases hs : stopsLoop i = true
      · have hw : ∃ t, (waitStep i.waitR).1 = [t] ∧ isTerminal t = true := by
          cases hw2 : i.waitR with
          | running => simp [stopsLoop, hw2] at hs
          | exited s => exact ⟨ProcessEvent.exited s, rfl, rfl⟩
          | errW e =>
              exact ⟨ProcessEvent.error (ProcessError.errorWaiting e), rfl, rfl⟩
        obtain ⟨t, hwt, hterm⟩ := hw
        refine ⟨(readStep buf i.stdoutR HandleType.stdOutput).2
          ++ (readStep (readStep buf i.stdoutR HandleType.stdOutput).1
              i.stderrR HandleType.stdError).2, t, ?_, hterm, ?_⟩
        · simp only [producedEvents]
          rw [if_pos (by rw [tick_stop_eq]; exact hs)]
          show (readStep buf i.stdoutR HandleType.stdOutput).2
            ++ (readStep (readStep buf i.stdoutR HandleType.stdOutput).1
                i.stderrR HandleType.stdError).2
            ++ (waitStep i.waitR).1 = _
          rw [hwt, List.append_assoc]
        · intro e hm
          rcases List.mem_append.mp hm with h1 | h2
          · exact readStep_not_terminal _ _ _ e h1
          · exact readStep_not_terminal _ _ _ e h2
      · have hs2 : stopsLoop i = false := by
          simpa using hs
        have hrest : rest.any stopsLoop = true := by
          simpa [hs2] using hstop
        obtain ⟨pre, t, hp, hterm, hpre⟩ := ih (processTick buf i).1 hrest
        have hwaitnil : (waitStep i.waitR).1 = [] := by
          cases hw2 : i.waitR with
          | running => rfl
          | exited s => simp [stopsLoop, hw2] at hs2
          | errW e => simp [stopsLoop, hw2] at hs2
        refine ⟨(processTick buf i).2.1 ++ pre, t, ?_, hterm, ?_⟩
        · simp only [producedEvents]
          rw [if_neg (by rw [tick_stop_eq, hs2]; exact Bool.false_ne_true)]
          rw [hp, List.append_assoc]
        · intro e hm
          rcases List.mem_append.mp hm with h1 | h2
          · have h1b : e ∈ (readStep buf i.stdoutR HandleType.stdOutput).2
                ∨ e ∈ (readStep (readStep buf i.stdoutR HandleType.stdOutput).1
                    i.stderrR HandleType.stdError).2 := by
              have := h1
              simp only [processTick, List.mem_append, hwaitnil,
                List.not_mem_nil, or_false] at this
              exact this
            rcases h1b with h1c | h1c
            · exact readStep_not_terminal _ _ _ e h1c
            · exact readStep_not_terminal _ _ _ e h1c
          · exact hpre e h2

/-- Claim C2: for a process whose loop terminates (the liveness query
eventually reports an exit or fails), (a) the queue the loop builds with
the pass-through hook is exactly the produced event sequence in
production order; (b) under ANY interleaving of queue pushes of those
events with director dequeues, the dequeued sequence followed by the
events still queued equals the produced sequence — dequeue order is
exactly production order (FIFO, no reordering, no loss); and (c) the
produced sequence contains exactly one terminal event (`Exited` or fatal
`Error(ErrorWaiting)`), which is its last element. -/
theorem events_fifo_one_terminal_last
    (buf : List Nat) (inputs : List TickInput) (ops : List QueueOp)
    (hstop : inputs.any stopsLoop = true)
    (hpush : pushedOf ops = producedEvents buf inputs) :
    (run_process_with_intercept passHook buf [] inputs).1
        = producedEvents buf inputs
    ∧ (runQueueOps ops []).1 ++ (runQueueOps ops []).2
        = producedEvents buf inputs
    ∧ ∃ pre t, producedEvents buf inputs = pre ++ [t]
        ∧ isTerminal t = true ∧ ∀ e ∈ pre, isTerminal e = false := by
  refine ⟨by simpa using run_passHook_queue inputs buf [], ?_,
    produced_terminal_last inputs buf hstop⟩
  rw [← hpush]
  simpa using runQueueOps_spec ops []

/-- Witness for C2 at a concrete one-tick run and a push-pop
interleaving. -/
theorem events_fifo_one_terminal_last_witness :
    ([⟨none, none, WaitResult.exited 0⟩] : List TickInput).any stopsLoop = true
    ∧ pushedOf [QueueOp.push (ProcessEvent.exited 0), QueueOp.pop]
        = producedEvents [] [⟨none, none, WaitResult.exited 0⟩]
    ∧ (runQueueOps [QueueOp.push (ProcessEvent.exited 0), QueueOp.pop] []).1
          ++ (runQueueOps [QueueOp.push (ProcessEvent.exited 0), QueueOp.pop] []).2
        = producedEvents [] [⟨none, none, WaitResult.exited 0⟩] := by
  refine ⟨by decide, by decide, ?_⟩
  exact (events_fifo_one_terminal_last []
    [⟨none, none, WaitResult.exited 0⟩]
    [QueueOp.push (ProcessEvent.exited 0), QueueOp.pop]
    (by decide) (by decide)).2.1

theorem dir_finished_iff (h : Handler) (r : DirRegistry) :
    directorTick h r = DirTickResult.finished ↔ r = [] := by
  unfold directorTick
  constructor
  · intro hf
    by_cases hr : r.length = 0
    · exact List.length_eq_zero.mp hr
    · rw [if_neg hr] at hf
      exact DirTickResult.noConfusion hf
  · intro he
    rw [he]
    rfl

/-- Claim C3: the director loop returns `Ok(())` exactly when the
registry is empty at the start of a tick: one tick finishes iff the
registry is empty, and a fuel-bounded run of the loop returns
successfully iff the registry becomes empty within the fuel. -/
theorem director_terminates_iff_empty (h : Handler) (fuel : Nat)
    (r : DirRegistry) :
    (directorTick h r = DirTickResult.finished ↔ r = [])
    ∧ (run_director_with_intercept h fuel r = true
        ↔ ∃ k, k < fuel ∧ ticksAfter h k r = []) := by
  refine ⟨dir_finished_iff h r, ?_⟩
  induction fuel generalizing r with
  | zero => simp [run_director_with_intercept]
  | succ n ih =>
      cases hr : directorTick h r with
      | finished =>
          have he : r = [] := (dir_finished_iff h r).mp hr
          simp only [run_director_with_intercept, hr]
          constructor
          · intro _
            exact ⟨0, Nat.succ_pos n, by simpa [ticksAfter] using he⟩
          · intro _
            trivial
      | stepped r2 =>
          have hne : r ≠ [] := by
            intro he
            have hfin : directorTick h r = DirTickResult.finished :=
              (dir_finished_iff h r).mpr he
            rw [hr] at hfin
            exact DirTickResult.noConfusion hfin
          have hstep : dirStep h r = r2 := by
            unfold dirStep
            rw [hr]
          simp only [run_director_with_intercept, hr]
          rw [ih r2]
          constructor
          · rintro ⟨k, hk, hkr⟩
            exact ⟨k + 1, by omega, by simpa [ticksAfter, hstep] using hkr⟩
          · rintro ⟨k, hk, hkr⟩
            cases k with
            | zero =>
                simp only [ticksAfter] at hkr
                exact absurd hkr hne
            | succ k2 =>
                refine ⟨k2, by omega, ?_⟩
                have hx : ticksAfter h (k2 + 1) r = ticksAfter h k2 r2 := by
                  simp [ticksAfter, hstep]
                rw [← hx]
                exact hkr

theorem directorPass_registry (h : Handler) :
    ∀ r : DirRegistry,
      (directorPass h r).1 = r.map (fun p => (p.1, p.2.drop 1)) := by
  intro r
  induction r with
  | nil => rfl
  | cons p rest ih =>
      obtain ⟨name, q⟩ := p
      cases q with
      | nil => simp [directorPass, visitEntry, ih]
      | cons ev qrest => simp [directorPass, visitEntry, ih]

theorem directorPass_handled (h : Handler) :
    ∀ r : DirRegistry,
      (directorPass h r).2.2 = r.filterMap (fun p => p.2.head?) := by
  intro r
  induction r with
  | nil => rfl
  | cons p rest ih =>
      obtain ⟨name, q⟩ := p
      cases q with
      | nil => simp [directorPass, visitEntry, ih]
      | cons ev qrest => simp [directorPass, visitEntry, ih]

theorem directorPass_marks (h : Handler) :
    ∀ r : DirRegistry,
      (directorPass h r).2.1
        = r.flatMap (fun p =>
            match p.2 with
            | [] => []
            | ev :: _ => marksOf h p.1 ev) := by
  intro r
  induction r with
  | nil => rfl
  | cons p rest ih =>
      obtain ⟨name, q⟩ := p
      cases q with
      | nil => simp [directorPass, visitEntry, ih]
      | cons ev qrest => simp [directorPass, visitEntry, ih]

/-- Claim C4: on a tick with a non-empty registry the director visits
every currently-registered process: the visitation pass keeps every entry
(with at most its queue front dequeued — the queue after the pass is the
drop of exactly one pending event, or unchanged when empty), the events
passed to the handler are exactly the queue fronts of all entries in
visit order, the to-remove marks are collected across the whole pass, and
only after the entire pass are the marked names removed from the
registry. -/
theorem director_tick_visits_all_removes_after
    (h : Handler) (r : DirRegistry) (hne : r ≠ []) :
    directorTick h r
      = DirTickResult.stepped
          (removeMarked (directorPass h r).2.1
            (r.map (fun p => (p.1, p.2.drop 1))))
    ∧ (directorPass h r).1 = r.map (fun p => (p.1, p.2.drop 1))
    ∧ (directorPass h r).2.2 = r.filterMap (fun p => p.2.head?)
    ∧ (directorPass h r).2.1
        = r.flatMap (fun p =>
            match p.2 with
            | [] => []
            | ev :: _ => marksOf h p.1 ev) := by
  have h1 := directorPass_registry h r
  refine ⟨?_, h1, directorPass_handled h r, directorPass_marks h r⟩
  unfold directorTick
  rw [if_neg (by rw [List.length_eq_zero]; exact hne)]
  show DirTickResult.stepped
      (removeMarked (directorPass h r).2.1 (directorPass h r).1) = _
  rw [h1]

/-- Witness for C4 at a concrete two-entry registry with the
pass-through handler. -/
theorem director_tick_visits_all_removes_after_witness :
    (([("p", [ProcessEvent.exited 0]), ("q", [])] : DirRegistry) ≠ [])
    ∧ directorTick forwardHandler [("p", [ProcessEvent.exited 0]), ("q", [])]
        = DirTickResult.stepped [("q", [])]
    ∧ (directorPass forwardHandler
        [("p", [ProcessEvent.exited 0]), ("q", [])]).1
        = [("p", []), ("q", [])] := by
  have h := director_tick_visits_all_removes_after forwardHandler
    [("p", [ProcessEvent.exited 0]), ("q", [])] (by decide)
  refine ⟨by decide, ?_, ?_⟩
  · rw [h.1]
    decide
  · rw [h.2.1]
    decide

/-- Claim C7 (counterexample): the claim asserts that whenever the
handler invokes the removal continuation with an event, the process is
marked for removal regardless of the variant of that event.  Here the
handler invokes the continuation exactly once, with an `Output` event,
for the dequeued event of process "p"; yet the to-remove list of the
pass is empty and the tick leaves "p" in the registry. -/
theorem continuation_with_output_not_marked :
    outputOnlyHandler (ProcessEvent.exited 0)
        = [ProcessEvent.output HandleType.stdOutput [] 0]
    ∧ (directorPass outputOnlyHandler [("p", [ProcessEvent.exited 0])]).2.1 = []
    ∧ directorTick outputOnlyHandler [("p", [ProcessEvent.exited 0])]
        = DirTickResult.stepped [("p", [])] := by
  refine ⟨rfl, by decide, by decide⟩

/-- Claim C7 (amended): a process is marked for removal in a pass iff
the handler, on the event dequeued for that process, invokes the removal
continuation with an `Exited` event; invocations with any other variant
do not mark — the engine inspects the variant of the event passed to the
continuation, so this is engine policy, not caller policy. -/
theorem marked_iff_continuation_exited (h : Handler) (r : DirRegistry)
    (name : String) :
    name ∈ (directorPass h r).2.1
      ↔ ∃ ev rest, (name, ev :: rest) ∈ r
          ∧ ∃ s, ProcessEvent.exited s ∈ h ev := by
  rw [directorPass_marks h r]
  rw [List.mem_flatMap]
  constructor
  · rintro ⟨p, hp, hm⟩
    obtain ⟨pn, q⟩ := p
    cases q with
    | nil => simp at hm
    | cons ev qrest =>
        have hm2 : name ∈ marksOf h pn ev := hm
        unfold marksOf at hm2
        rw [List.mem_filterMap] at hm2
        obtain ⟨e2, he2, hsome⟩ := hm2
        cases e2 with
        | exited s =>
            have hpn : pn = name := by
              simpa using hsome
            exact ⟨ev, qrest, hpn ▸ hp, s, he2⟩
        | error err => simp at hsome
        | output a b c => simp at hsome
  · rintro ⟨ev, rest, hp, s, hs⟩
    refine ⟨(name, ev :: rest), hp, ?_⟩
    show name ∈ marksOf h name ev
    unfold marksOf
    rw [List.mem_filterMap]
    exact ⟨ProcessEvent.exited s, hs, rfl⟩

end Procman
